import Mathlib

set_option maxRecDepth 16000
set_option maxHeartbeats 2000000

/-!
Verification of the embedding-based TextTiling segmentation engine of the
`ai-clips-maker` repository (`txtslice/tiler_algorithm.py`,
`txtslice/segment_picker.py`, `txtslice/matcher.py`,
`utils/pytorch.py`).

Modelling conventions:
* Python floats are modelled as exact rationals (`ℚ`); integer character
  offsets as `ℕ`.
* A vector (one row of a 2-D torch tensor) is a `List ℚ`.
* Exceptions are modelled with `Except String`.
* `torch.sqrt`-based primitives (`torch.linalg.norm`,
  `F.cosine_similarity`) use `Rat.sqrt`, which agrees with the real square
  root whenever the argument is a square of a rational; every concrete
  input used in a theorem below keeps these values exact (1-dimensional
  embedding rows).  The statistical cutoff comparison
  `depth > mean ± std` (where `std` is the square root of the population
  variance) is encoded by the equivalent polynomial comparison over `ℚ`;
  the equivalence with the real-number formulation is proved in the C3
  theorem below.
-/

namespace ClipsMaker

/-- One embedding row (a 1-D slice of a 2-D torch tensor). -/
abbrev Vec := List ℚ

/-- Dot product of two rows (`torch` inner product on equal-length rows). -/
def dotList (u v : Vec) : ℚ := ((List.zip u v).map (fun p => p.1 * p.2)).sum

/-- Integer square root (largest `k` with `k * k ≤ n`), written as a
structurally recursive scan so that concrete runs reduce inside `decide`
(the library's `Nat.sqrt` is defined by well-founded recursion, which the
kernel cannot evaluate).  `natSqrt_eq_sqrt` below shows it agrees with
`Nat.sqrt`. -/
def natSqrt (n : ℕ) : ℕ :=
  (List.range (n + 1)).foldl (fun acc k => if k * k ≤ n then k else acc) 0

/-- The scan over `range m` returns the largest `k < m` with `k * k ≤ n`,
i.e. `min (Nat.sqrt n) (m - 1)`. -/
theorem natSqrt_fold (n : ℕ) : ∀ m : ℕ,
    (List.range m).foldl (fun acc k => if k * k ≤ n then k else acc) 0 =
      min (Nat.sqrt n) (m - 1) := by
  intro m
  induction m with
  | zero => simp
  | succ m ih =>
    rw [List.range_succ, List.foldl_append, ih]
    simp only [List.foldl_cons, List.foldl_nil]
    by_cases hm : m * m ≤ n
    · rw [if_pos hm]
      have : m ≤ Nat.sqrt n := Nat.le_sqrt.mpr hm
      omega
    · rw [if_neg hm]
      have : ¬ m ≤ Nat.sqrt n := fun hc => hm (Nat.le_sqrt.mp hc)
      omega

/-- The executable square root agrees with the library's `Nat.sqrt`. -/
theorem natSqrt_eq_sqrt (n : ℕ) : natSqrt n = Nat.sqrt n := by
  unfold natSqrt
  rw [natSqrt_fold]
  have := Nat.sqrt_le_self n
  omega

/-- Square root on `ℚ` (numerator and denominator separately, like
`Rat.sqrt`): exact whenever the argument is the square of a rational,
which holds for every concrete input used below. -/
def ratSqrt (q : ℚ) : ℚ := (natSqrt q.num.toNat : ℚ) / (natSqrt q.den : ℚ)

/-- `torch.linalg.norm(v, ord=2)`: Euclidean norm.  Exact whenever
`dotList v v` is a square of a rational. -/
def normTwo (v : Vec) : ℚ := ratSqrt (dotList v v)

/-- `torch.nn.functional.cosine_similarity(u, v, dim=0)`.  The `eps`
clamp of the torch implementation only matters for zero vectors, where
both the torch result and the `ℚ` convention `x / 0 = 0` give `0`. -/
def cosineSim (u v : Vec) : ℚ := dotList u v / (normTwo u * normTwo v)

/-- Column `j` of a list of rows (`tensor[:, j]`). -/
def column (vs : List Vec) (j : ℕ) : List ℚ := vs.map (fun v => v.getD j 0)

/-- Number of columns of a 2-D tensor given as a list of rows. -/
def numCols (vs : List Vec) : ℕ := (vs.headI).length

/-- `torch.mean(t, dim=0)`: per-column mean. -/
def meanPool (vs : List Vec) : Vec :=
  (List.range (numCols vs)).map (fun j => (column vs j).sum / (vs.length : ℚ))

/-- First element of maximal absolute value of a column (`torch.max` on
`torch.abs` returns the index of the first maximal entry on CPU). -/
def firstMaxAbs (l : List ℚ) : ℚ :=
  match l with
  | [] => 0
  | a :: as => as.foldl (fun b c => if |b| < |c| then c else b) a

/-- `max_magnitude_2d(t, dim=0)` from `utils/pytorch.py`: per column,
keep the (sign-preserving) entry of largest magnitude. -/
def maxMagnitude2d (vs : List Vec) : Vec :=
  (List.range (numCols vs)).map (fun j => firstMaxAbs (column vs j))

/-- `TextTiler._get_pool_method`: `"mean" ↦ torch.mean`,
`"max" ↦ max_magnitude_2d`.  Any other name raises `TextTilerError` in
the source; it is unreachable because `text_tile` asserts the
configuration first, so the fallback branch (never taken there) reuses
`meanPool`. -/
def poolMethod (name : String) : List Vec → Vec :=
  if name = "mean" then meanPool
  else if name = "max" then maxMagnitude2d
  else meanPool

/-- Full 1-D convolution of two sequences (`numpy.convolve`, mode `full`):
length `f.length + g.length - 1`, entry `k` is `Σ_i f i * g (k - i)`. -/
def convFull (f g : List ℚ) : List ℚ :=
  (List.range (f.length + g.length - 1)).map
    (fun k => ((List.range (k + 1)).map (fun i => f.getD i 0 * g.getD (k - i) 0)).sum)

/-- `smooth(x, window_len, window)` from `tiler_algorithm.py`.

Follows the source line by line:
* `x.size < window_len` raises `ValueError`;
* `window_len < 3` returns the input unchanged;
* an unknown window type raises `ValueError`;
* otherwise the sequence is reflection-padded
  (`s = [2*x[0] - x[window_len:1:-1], x, 2*x[-1] - x[-1:-window_len:-1]]`),
  convolved with the flat kernel `ones(window_len)/window_len` in
  numpy's `same` mode, and sliced as `y[window_len - 1 : -window_len + 1]`.
  (Only `window="flat"` is ever passed by this repository; the non-flat
  kernels would go through `numpy.hanning` etc. and are modelled with the
  flat kernel, which no theorem below depends on.)

The Python slice `x[window_len:1:-1]` is the reversed run of indices
`2 .. min(window_len, n-1)`, i.e. `((x.take (wl+1)).drop 2).reverse`;
`x[-1:-window_len:-1]` is the reversed run
`max(0, n-window_len+1) .. n-1`, i.e. `(x.drop (n - (wl-1))).reverse`.
`numpy.convolve(w, s, mode="same")` with `w.length ≤ s.length` is
`full[(w.length - 1)/2 :][:s.length]`. -/
def smooth (x : List ℚ) (window_len : ℕ) (window : String) : Except String (List ℚ) :=
  if x.length < window_len then
    .error ("Input vector needs to be bigger than window size.")
  else if window_len < 3 then .ok x
  else if ¬ (window = "flat" ∨ window = "hanning" ∨ window = "hamming" ∨
      window = "bartlett" ∨ window = "blackman") then
    .error ("Invalid window type.")
  else
    let n := x.length
    let leftPad := (((x.take (window_len + 1)).drop 2).reverse).map
      (fun v => 2 * x.headI - v)
    let rightPad := ((x.drop (n - (window_len - 1))).reverse).map
      (fun v => 2 * x.getLastD 0 - v)
    let s := leftPad ++ x ++ rightPad
    let kern := List.replicate window_len (1 / (window_len : ℚ))
    let same := ((convFull kern s).drop ((window_len - 1) / 2)).take s.length
    .ok ((same.drop (window_len - 1)).take (s.length - 2 * (window_len - 1)))

/-- `TextTiler._calc_gap_scores`: for each adjacent position `i`, pool the
left window `embeddings[max(0, i-k+1) : i+1]` and the right window
`embeddings[i+1 : min(i+1+k, N)]` and take their cosine similarity. -/
def calc_gap_scores (embs : List Vec) (k : ℕ) (pool : List Vec → Vec) : List ℚ :=
  (List.range (embs.length - 1)).map (fun i =>
    cosineSim (pool ((embs.take (i + 1)).drop (i + 1 - k)))
      (pool ((embs.take (min (i + 1 + k) embs.length)).drop (i + 1))))

/-- Maximum of a list of rationals (`max` over a nonempty tensor slice;
`0` for the empty list, which never occurs at call sites). -/
def listMax : List ℚ → ℚ
  | [] => 0
  | a :: as => as.foldl max a

/-- `TextTiler._calc_depth_scores`:
`depth[i] = (max gap[0..i] - gap[i]) + (max gap[i..] - gap[i])`. -/
def calc_depth_scores (g : List ℚ) : List ℚ :=
  (List.range g.length).map (fun i =>
    (listMax (g.take (i + 1)) - g.getD i 0) + (listMax (g.drop i) - g.getD i 0))

/-- Mean of a depth-score tensor (`torch.mean`). -/
def meanOf (l : List ℚ) : ℚ := l.sum / (l.length : ℚ)

/-- Population variance (`torch.std(·, unbiased=False)` squared). -/
def varOf (l : List ℚ) : ℚ :=
  ((l.map (fun d => (d - meanOf l) ^ 2)).sum) / (l.length : ℚ)

/-- The comparison `d > cutoff` of `_identify_boundaries`, where
`cutoff = mean` / `mean + std` / `mean - std` and `std = √var` is the
population standard deviation.  Encoded without square roots by the
equivalent polynomial comparisons over `ℚ` (the equivalence with the
real-number inequality is proved in `C3_boundary_selection`). -/
def gtCutoff (policy : String) (m v d : ℚ) : Bool :=
  if policy = "average" then decide (m < d)
  else if policy = "high" then decide (m ≤ d) && decide (v < (d - m) ^ 2)
  else decide (m < d) || decide ((m - d) ^ 2 < v)

/-- The per-position boundary condition of `_identify_boundaries`:
`depths[i] > cutoff and depths[i] > depths[max(0, i-1)] and
depths[i] > depths[min(i+1, len(depths)-1)]`. -/
def boundaryCond (depths : List ℚ) (policy : String) (i : ℕ) : Bool :=
  gtCutoff policy (meanOf depths) (varOf depths) (depths.getD i 0) &&
    decide (depths.getD (i - 1) 0 < depths.getD i 0) &&
    decide (depths.getD (min (i + 1) (depths.length - 1)) 0 < depths.getD i 0)

/-- `TextTiler._identify_boundaries`: a 0/1 flag vector of length
`len(depths) + 1`; an unknown cutoff policy raises `TextTilerError`;
position `i < len(depths)` is flagged iff `boundaryCond` holds there and
the final position is always forced to `1`. -/
def identify_boundaries (depths : List ℚ) (policy : String) :
    Except String (List ℕ) :=
  if policy = "average" ∨ policy = "high" ∨ policy = "low" then
    .ok ((List.range (depths.length + 1)).map (fun i =>
      if i = depths.length then 1
      else if boundaryCond depths policy i then 1 else 0))
  else .error ("Invalid cutoff_policy: " ++ policy)

/-- Loop of `TextTiler._pool_embedding_groups`: walk the rows and flags in
lockstep, accumulate the current group, and flush it through `pool` at
every set flag.  Exhausting the flags before the rows is the source's
`IndexError`; an empty pooled list is `torch.stack([])`, which raises. -/
def poolGroupsGo (pool : List Vec → Vec) :
    List Vec → List ℕ → List Vec → List Vec → Except String (List Vec)
  | [], _, _, pooled =>
    if pooled.isEmpty then .error ("stack expects a non-empty TensorList")
    else .ok pooled.reverse
  | _ :: _, [], _, _ => .error ("IndexError: boundaries index out of range")
  | e :: es, b :: bs, group, pooled =>
    let group' := group ++ [e]
    if b = 1 then poolGroupsGo pool es bs [] (pool group' :: pooled)
    else poolGroupsGo pool es bs group' pooled

/-- `TextTiler._pool_embedding_groups`. -/
def pool_embedding_groups (embs : List Vec) (boundaries : List ℕ)
    (pool : List Vec → Vec) : Except String (List Vec) :=
  poolGroupsGo pool embs boundaries [] []

/-- `TextTilerConfigManager.check_valid_config` on the five settings
checked before `text_tile` runs (in the source's checker order):
cutoff policy, aggregation pool method, `k ≥ 2`, smoothing width `≥ 3`,
window-compare pool method. -/
def check_valid_tiler_config (k : ℕ) (window_compare_pool_method : String)
    (embedding_aggregation_pool_method : String) (smoothing_width : ℕ)
    (cutoff_policy : String) : Option String :=
  if ¬ (cutoff_policy = "average" ∨ cutoff_policy = "low" ∨ cutoff_policy = "high") then
    some ("Invalid cutoff_policy: " ++ cutoff_policy)
  else if ¬ (embedding_aggregation_pool_method = "mean" ∨
      embedding_aggregation_pool_method = "max") then
    some ("Invalid pool_method: " ++ embedding_aggregation_pool_method)
  else if k < 2 then some ("Invalid k value. Must be at least 2.")
  else if smoothing_width < 3 then
    some ("Invalid smoothing_width. Must be at least 3.")
  else if ¬ (window_compare_pool_method = "mean" ∨
      window_compare_pool_method = "max") then
    some ("Invalid pool_method: " ++ window_compare_pool_method)
  else none

/-- `TextTiler.text_tile`: assert the configuration, silently reduce
`k ≥ N` to `max(N // 5, 2)` and `smoothing_width ≥ N` to `2`, then run
gap scores → smoothing → depth scores → boundary identification → group
pooling. -/
def text_tile (embs : List Vec) (k : ℕ) (window_compare_pool_method : String)
    (embedding_aggregation_pool_method : String) (smoothing_width : ℕ)
    (cutoff_policy : String) : Except String (List ℕ × List Vec) :=
  match check_valid_tiler_config k window_compare_pool_method
      embedding_aggregation_pool_method smoothing_width cutoff_policy with
  | some e => .error e
  | none =>
    -- `k` reduced when `k ≥ N`; `smoothing_width` reduced when `≥ N`.
    match smooth
        (calc_gap_scores embs
          (if embs.length ≤ k then max (embs.length / 5) 2 else k)
          (poolMethod window_compare_pool_method))
        (if embs.length ≤ smoothing_width then 2 else smoothing_width)
        ("flat") with
    | .error e => .error e
    | .ok sm =>
      match identify_boundaries (calc_depth_scores sm) cutoff_policy with
      | .error e => .error e
      | .ok flags =>
        match pool_embedding_groups embs flags
            (poolMethod embedding_aggregation_pool_method) with
        | .error e => .error e
        | .ok pooled => .ok (flags, pooled)

/-! ### Shape lemmas for the boundary-detection pipeline

These are needed before `text_tile_multiple_rounds` can even be defined:
the driver's `while len(clip_embeddings) > 8` loop terminates because each
successful round strictly shrinks the embedding sequence. -/

/-- Number of set flags in a 0/1 boundary vector. -/
def countOnes (l : List ℕ) : ℕ := l.countP (fun b => b == 1)

/-- A successful `smooth` never lengthens its input (it keeps the length
for `n > window_len`, and loses one element when `n = window_len`). -/
theorem smooth_ok_length_le (x : List ℚ) (wl : ℕ) (win : String) (y : List ℚ)
    (h : smooth x wl win = .ok y) : y.length ≤ x.length := by
  unfold smooth at h
  split_ifs at h with h1 h2 h3
  all_goals rw [Except.ok.injEq] at h
  all_goals subst h
  · exact le_refl _
  · simp only [List.length_take, List.length_drop, List.length_append,
      List.length_map, List.length_reverse, convFull, List.length_range,
      List.length_replicate]
    omega

/-- `smooth` with a window width below 3 is the identity (provided the
input is at least as long as the width, otherwise it raises). -/
theorem smooth_noop (x : List ℚ) (wl : ℕ) (win : String) (h2 : wl < 3)
    (hle : wl ≤ x.length) : smooth x wl win = .ok x := by
  unfold smooth
  rw [if_neg (by omega), if_pos h2]

/-- For `3 ≤ window_len < n` the flat smoothing succeeds and preserves the
length of its input. -/
theorem smooth_flat_length (x : List ℚ) (wl : ℕ) (h3 : 3 ≤ wl)
    (hlt : wl < x.length) :
    ∃ y, smooth x wl ("flat") = .ok y ∧ y.length = x.length := by
  unfold smooth
  rw [if_neg (by omega), if_neg (by omega), if_neg (by simp)]
  refine ⟨_, rfl, ?_⟩
  simp only [List.length_take, List.length_drop, List.length_append,
    List.length_map, List.length_reverse, convFull, List.length_range,
    List.length_replicate]
  omega

/-- Specification of the group-pooling loop: on success the flags cover
every row, the number of pooled groups is the number of set flags among
the consumed prefix (plus the groups already flushed), and at least one
group comes out. -/
theorem poolGroupsGo_ok (pool : List Vec → Vec) :
    ∀ (es : List Vec) (bs : List ℕ) (g p r : List Vec),
      poolGroupsGo pool es bs g p = .ok r →
      es.length ≤ bs.length ∧
        r.length = p.length + countOnes (bs.take es.length) ∧ 1 ≤ r.length := by
  intro es
  induction es with
  | nil =>
    intro bs g p r h
    unfold poolGroupsGo at h
    split_ifs at h with hp
    rw [Except.ok.injEq] at h
    subst h
    rw [List.isEmpty_iff] at hp
    refine ⟨Nat.zero_le _, by simp [countOnes], ?_⟩
    cases p with
    | nil => exact absurd rfl hp
    | cons a as => simp
  | cons e es ih =>
    intro bs g p r h
    cases bs with
    | nil => exact absurd h (by unfold poolGroupsGo; simp)
    | cons b bs =>
      unfold poolGroupsGo at h
      by_cases hb : b = 1
      · rw [if_pos hb] at h
        obtain ⟨h1, h2, h3⟩ := ih bs [] (pool (g ++ [e]) :: p) r h
        refine ⟨by simpa using h1, ?_, h3⟩
        simp only [List.length_cons, countOnes, List.countP_nil,
          Nat.zero_add] at h2 ⊢
        rw [List.take_succ_cons, List.countP_cons]
        simp only [hb, beq_self_eq_true, if_true]
        omega
      · rw [if_neg hb] at h
        obtain ⟨h1, h2, h3⟩ := ih bs (g ++ [e]) p r h
        refine ⟨by simpa using h1, ?_, h3⟩
        simp only [List.length_cons, countOnes] at h2 ⊢
        rw [List.take_succ_cons, List.countP_cons]
        have hbeq : (b == 1) = false := by simp [hb]
        rw [hbeq]
        simp only [Bool.false_eq_true, if_false]
        omega

/-- Existence half: if the flags cover every row and at least one flush
will happen, the group-pooling loop succeeds. -/
theorem poolGroupsGo_ok_of (pool : List Vec → Vec) :
    ∀ (es : List Vec) (bs : List ℕ) (g p : List Vec),
      es.length ≤ bs.length →
      1 ≤ p.length + countOnes (bs.take es.length) →
      ∃ r, poolGroupsGo pool es bs g p = .ok r := by
  intro es
  induction es with
  | nil =>
    intro bs g p _ hpos
    refine ⟨p.reverse, ?_⟩
    unfold poolGroupsGo
    rw [if_neg ?_]
    intro hemp
    rw [List.isEmpty_iff] at hemp
    subst hemp
    simp [countOnes] at hpos
  | cons e es ih =>
    intro bs g p hlen hpos
    cases bs with
    | nil => simp at hlen
    | cons b bs =>
      unfold poolGroupsGo
      by_cases hb : b = 1
      · rw [if_pos hb]
        refine ih bs [] (pool (g ++ [e]) :: p) (by simpa using hlen) ?_
        simp only [List.length_cons]
        omega
      · rw [if_neg hb]
        refine ih bs (g ++ [e]) p (by simpa using hlen) ?_
        simp only [List.length_cons] at hpos
        rw [List.take_succ_cons] at hpos
        simp only [countOnes, List.countP_cons] at hpos
        have hbeq : (b == 1) = false := by simp [hb]
        rw [hbeq] at hpos
        simp only [Bool.false_eq_true, if_false] at hpos
        simpa [countOnes] using hpos

/-- `getD` of a mapped range, inside bounds. -/
theorem getD_range_map {α : Type} (f : ℕ → α) (n i : ℕ) (d : α) (h : i < n) :
    (((List.range n).map f).getD i d) = f i := by
  rw [List.getD_eq_getElem?_getD]
  simp [List.getElem?_map, List.getElem?_range, h]

/-- The boundary condition never holds at position `0`: the source
compares `depths[0] > depths[max(0, -1)] = depths[0]`, which is false. -/
theorem boundaryCond_zero (depths : List ℚ) (policy : String) :
    boundaryCond depths policy 0 = false := by
  simp [boundaryCond]

/-- The boundary condition never holds at the last depth position: the
source compares `depths[M-1] > depths[min(M, M-1)] = depths[M-1]`. -/
theorem boundaryCond_last (depths : List ℚ) (policy : String) (hM : 1 ≤ depths.length) :
    boundaryCond depths policy (depths.length - 1) = false := by
  have hmin : min (depths.length - 1 + 1) (depths.length - 1) = depths.length - 1 := by
    omega
  simp [boundaryCond, hmin]

/-- A predicate that fails at `0` holds on strictly fewer than `n`
elements of `range n`. -/
theorem countP_range_lt (q : ℕ → Bool) (n : ℕ) (h0 : q 0 = false) (hn : 1 ≤ n) :
    List.countP q (List.range n) < n := by
  obtain ⟨m, rfl⟩ : ∃ m, n = m + 1 := ⟨n - 1, by omega⟩
  rw [List.range_succ_eq_map, List.countP_cons, h0]
  have := List.countP_le_length (p := q) (l := (List.range m).map Nat.succ)
  simp only [List.length_map, List.length_range] at this
  simp only [Bool.false_eq_true, if_false, Nat.add_zero]
  omega

/-- Full shape specification of a successful `text_tile` run:
the flag vector has the input's length, its last entry is set, the pooled
sequence has one entry per set flag (hence at least one), and - the heart
of the driver's termination - on an input of length at least 2 the pooled
sequence is strictly shorter than the input. -/
theorem text_tile_ok_spec (embs : List Vec) (k : ℕ) (wcp agg : String)
    (wl : ℕ) (policy : String) (flags : List ℕ) (pooled : List Vec)
    (h : text_tile embs k wcp agg wl policy = .ok (flags, pooled)) :
    flags.length = embs.length ∧ pooled.length = countOnes flags ∧
      1 ≤ pooled.length ∧ flags.getD (embs.length - 1) 0 = 1 ∧
      (2 ≤ embs.length → pooled.length < embs.length) := by
  unfold text_tile at h
  split at h
  · exact absurd h (by simp)
  split at h
  · exact absurd h (by simp)
  next sm hsm =>
  split at h
  · exact absurd h (by simp)
  next flags' hid =>
  split at h
  · exact absurd h (by simp)
  next pooled' hpool =>
  rw [Except.ok.injEq, Prod.mk.injEq] at h
  obtain ⟨hf, hp⟩ := h
  rw [hf] at hid
  rw [hf, hp] at hpool
  -- flag vector length
  have hsml : sm.length ≤ embs.length - 1 := by
    have := smooth_ok_length_le _ _ _ _ hsm
    simpa [calc_gap_scores] using this
  have hfl' : flags.length = (calc_depth_scores sm).length + 1 := by
    unfold identify_boundaries at hid
    split_ifs at hid
    rw [Except.ok.injEq] at hid
    rw [← hid]
    simp
  have hdl : (calc_depth_scores sm).length = sm.length := by
    simp [calc_depth_scores]
  unfold pool_embedding_groups at hpool
  obtain ⟨hcover, hcount, hpos⟩ := poolGroupsGo_ok _ _ _ _ _ _ hpool
  have hN1 : 1 ≤ embs.length := by
    by_contra hN0
    have h0 : embs.length = 0 := by omega
    rw [h0] at hcount
    simp only [List.take_zero, countOnes, List.countP_nil, List.length_nil,
      Nat.add_zero, Nat.zero_add] at hcount
    omega
  have hfl : flags.length = embs.length := by omega
  have htake : flags.take embs.length = flags := by
    rw [← hfl]
    exact List.take_length _
  rw [htake] at hcount
  simp only [List.length_nil, Nat.zero_add] at hcount
  -- last flag is forced
  have hlast : flags.getD (embs.length - 1) 0 = 1 := by
    unfold identify_boundaries at hid
    split_ifs at hid
    cases hid
    have hlt : (calc_depth_scores sm).length < (calc_depth_scores sm).length + 1 := by omega
    rw [show embs.length - 1 = (calc_depth_scores sm).length by omega]
    rw [getD_range_map _ _ _ _ hlt]
    simp
  refine ⟨hfl, hcount, by omega, hlast, ?_⟩
  -- strict shrink for inputs of length ≥ 2
  intro h2
  unfold identify_boundaries at hid
  split_ifs at hid
  cases hid
  rw [hcount]
  set M := (calc_depth_scores sm).length with hM
  have hMpos : 1 ≤ M := by omega
  have hlen : (((List.range (M + 1)).map (fun i =>
      if i = M then 1 else if boundaryCond (calc_depth_scores sm) policy i then 1 else 0)) :
      List ℕ).length = M + 1 := by simp
  rw [show embs.length = M + 1 by omega]
  unfold countOnes
  rw [List.countP_map]
  refine countP_range_lt _ _ ?_ (by omega)
  simp [boundaryCond_zero, show (0 : ℕ) ≠ M by omega]

/-! ### ClipFinder (`segment_picker.py`) -/

/-- A working clip record (the dicts flowing through `ClipFinder`): both
the atomic sentence units from `get_sentence_info` and the merged
candidates share this shape. -/
structure Clip where
  start_char : ℕ
  end_char : ℕ
  start_time : ℚ
  end_time : ℚ
  norm : ℚ
  deriving DecidableEq, Inhabited, Repr

/-- `MediaSegment` from `txtslice/matcher.py`. -/
structure MediaSegment where
  begin_sec : ℚ
  finish_sec : ℚ
  text_start_idx : ℕ
  text_end_idx : ℕ
  deriving DecidableEq, Inhabited, Repr

/-- `MediaSegment.__bool__`: true iff all four fields are truthy, i.e.
nonzero. -/
def mediaSegmentBool (s : MediaSegment) : Bool :=
  decide (s.begin_sec ≠ 0) && decide (s.finish_sec ≠ 0) &&
    decide (s.text_start_idx ≠ 0) && decide (s.text_end_idx ≠ 0)

/-- The final conversion in `find_clips`:
`MediaSegment(clip["start_time"], clip["end_time"], clip["start_char"],
clip["end_char"])`. -/
def toMediaSegment (c : Clip) : MediaSegment :=
  { begin_sec := c.start_time, finish_sec := c.end_time,
    text_start_idx := c.start_char, text_end_idx := c.end_char }

/-- The configuration fields of a `ClipFinder` instance. -/
structure ClipFinderConfig where
  min_clip_duration : ℚ
  max_clip_duration : ℚ
  cutoff_policy : String
  embedding_aggregation_pool_method : String
  smoothing_width : ℕ
  window_compare_pool_method : String
  deriving DecidableEq, Repr

/-- `ClipFinderConfigManager.check_valid_config` (the checks actually
performed on the six fields, in source order: clip times first, then the
validator table). -/
def check_valid_clip_finder_config (cfg : ClipFinderConfig) : Option String :=
  if cfg.min_clip_duration < 0 then some ("min_clip_duration must be at least 0")
  else if cfg.max_clip_duration ≤ cfg.min_clip_duration then
    some ("max_clip_duration must be greater than min_clip_duration")
  else if ¬ (cfg.cutoff_policy = "average" ∨ cfg.cutoff_policy = "low" ∨
      cfg.cutoff_policy = "high") then some ("Invalid cutoff_policy")
  else if ¬ (cfg.embedding_aggregation_pool_method = "mean" ∨
      cfg.embedding_aggregation_pool_method = "max") then some ("Invalid pool_method")
  else if cfg.smoothing_width < 3 then some ("Invalid smoothing_width")
  else if ¬ (cfg.window_compare_pool_method = "mean" ∨
      cfg.window_compare_pool_method = "max") then some ("Invalid pool_method")
  else none

/-- The `ClipFinderError` message of `ClipFinder._text_tile` for a
length mismatch. -/
def mismatchMsg (a b : ℕ) : String :=
  "Embedding length (" ++ toString a ++ ") and clips (" ++ toString b ++ ") mismatch."

/-- The clip-combination loop of `ClipFinder._text_tile`
(`for i in range(len(clips)) ...`), recursing over the boundary flags in
step with the running index `i`; `startIdx` and `superIdx` mirror the
source's `start_idx` and `super_idx`.  Note the source's
`start_idx = end_idx` (not `end_idx + 1`) after each emitted clip.
The call site guarantees `flags.length = clips.length`, so indexing with
`getD` matches the source (a shorter flag vector would raise IndexError
there, never reached). -/
def buildSuperGo (clips : List Clip) (newEmbs : List Vec) :
    List ℕ → ℕ → ℕ → ℕ → List Clip
  | [], _, _, _ => []
  | b :: bs, i, startIdx, superIdx =>
    if b = 1 then
      { start_char := (clips.getD startIdx default).start_char,
        end_char := (clips.getD i default).end_char,
        start_time := (clips.getD startIdx default).start_time,
        end_time := (clips.getD i default).end_time,
        norm := normTwo (newEmbs.getD superIdx []) } ::
        buildSuperGo clips newEmbs bs (i + 1) i (superIdx + 1)
    else buildSuperGo clips newEmbs bs (i + 1) startIdx superIdx

/-- The super-clip construction of `ClipFinder._text_tile`. -/
def buildSuperClips (clips : List Clip) (flags : List ℕ) (newEmbs : List Vec) :
    List Clip :=
  buildSuperGo clips newEmbs flags 0 0 0

/-- `ClipFinder._text_tile`: raise on an embedding/clip length mismatch,
clamp `k` to `min(k, max(3, len(clip_embeddings)))`, run the tiler, and
combine each boundary group into a super clip. -/
def clip_text_tile (cfg : ClipFinderConfig) (clips : List Clip)
    (clip_embeddings : List Vec) (k : ℕ) : Except String (List Clip × List Vec) :=
  if clip_embeddings.length ≠ clips.length then
    .error (mismatchMsg clip_embeddings.length clips.length)
  else
    match text_tile clip_embeddings (min k (max 3 clip_embeddings.length))
        cfg.window_compare_pool_method cfg.embedding_aggregation_pool_method
        cfg.smoothing_width cfg.cutoff_policy with
    | .error e => .error e
    | .ok (boundaries, new_embeddings) =>
      .ok (buildSuperClips clips boundaries new_embeddings, new_embeddings)

/-- `ClipFinder._is_duplicate`: a candidate is a near-duplicate of some
existing segment when start and end times differ by less than 15 seconds
combined. -/
def is_duplicate (seg : Clip) (existing : List Clip) : Bool :=
  existing.any (fun ref =>
    decide (|seg.start_time - ref.start_time| + |seg.end_time - ref.end_time| < 15))

/-- `ClipFinder._remove_duplicates`: keep the candidates whose duration
lies within the bounds and which are not near-duplicates of an existing
segment. -/
def remove_duplicates (potential existing : List Clip) (min_dur max_dur : ℚ) :
    List Clip :=
  potential.filter (fun c =>
    decide (min_dur ≤ c.end_time - c.start_time) &&
      decide (c.end_time - c.start_time ≤ max_dur) && ! is_duplicate c existing)

/-- A successful round of `ClipFinder._text_tile` strictly shrinks the
embedding sequence (whenever it has at least 2 rows - in particular under
the driver's `> 8` guard). -/
theorem clip_text_tile_se_lt (cfg : ClipFinderConfig) (clips : List Clip)
    (embs : List Vec) (k : ℕ) (sc : List Clip) (se : List Vec)
    (h2 : 2 ≤ embs.length)
    (h : clip_text_tile cfg clips embs k = .ok (sc, se)) :
    se.length < embs.length := by
  unfold clip_text_tile at h
  split_ifs at h
  split at h
  · exact absurd h (by simp)
  next flags newEmbs htt =>
  rw [Except.ok.injEq, Prod.mk.injEq] at h
  obtain ⟨hsc, hse⟩ := h
  rw [hse] at htt
  exact (text_tile_ok_spec _ _ _ _ _ _ _ _ htt).2.2.2.2 h2

/-- `ClipFinder._text_tile_multiple_rounds`: repeatedly tile while the
working sequence has more than 8 elements, filter each round's candidates
against the accumulated list, and append the survivors.  The recursion is
well-founded because each successful round strictly shrinks the
embedding sequence (`clip_text_tile_se_lt`); a raised exception
propagates. -/
def text_tile_multiple_rounds (cfg : ClipFinderConfig) (clips : List Clip)
    (clip_embeddings : List Vec) (k : ℕ) (min_clip_duration max_clip_duration : ℚ)
    (final_clips : List Clip) : Except String (List Clip) :=
  if h : 8 < clip_embeddings.length then
    match htt : clip_text_tile cfg clips clip_embeddings k with
    | .error e => .error e
    | .ok (super_clips, super_embeddings) =>
      text_tile_multiple_rounds cfg super_clips super_embeddings k
        min_clip_duration max_clip_duration
        (final_clips ++
          remove_duplicates super_clips final_clips min_clip_duration max_clip_duration)
  else .ok final_clips
termination_by clip_embeddings.length
decreasing_by
  exact clip_text_tile_se_lt cfg clips clip_embeddings k super_clips
    super_embeddings (by omega) htt

/-- The window-size/tier schedule of `ClipFinder.find_clips`
(`for k_vals, min_sec in [([5, 7], min), ([11, 17], 180),
([37, 53, 73, 97], 600)]: for k in k_vals: ...`), flattened into the
sequence of `(k, min_sec)` pairs the nested loops iterate over. -/
def tier_schedule (cfg : ClipFinderConfig) : List (ℕ × ℚ) :=
  [(5, cfg.min_clip_duration), (7, cfg.min_clip_duration),
   (11, 180), (17, 180), (37, 600), (53, 600), (73, 600), (97, 600)]

/-- The tier loop of `find_clips`: thread the accumulated clip list
through `text_tile_multiple_rounds` for each scheduled window size,
always restarting from the atomic sentence units. -/
def run_schedule (cfg : ClipFinderConfig) (sentences_info : List Clip)
    (sentence_embeddings : List Vec) :
    List (ℕ × ℚ) → List Clip → Except String (List Clip)
  | [], clips => .ok clips
  | km :: rest, clips =>
    match text_tile_multiple_rounds cfg sentences_info sentence_embeddings km.1
        km.2 cfg.max_clip_duration clips with
    | .error e => .error e
    | .ok clips' => run_schedule cfg sentences_info sentence_embeddings rest clips'

/-- The whole-transcript seed candidate appended by `find_clips` when the
transcript fits within the maximum clip duration. -/
def seedClip (end_time : ℚ) (num_chars : ℕ) : Clip :=
  { start_char := 0, end_char := num_chars, start_time := 0,
    end_time := end_time, norm := 1 }

/-- `ClipFinder.find_clips`, parameterised by the sentence units
(`transcription.get_sentence_info()`), the external embedding provider's
output (`TextEmbedder.embed_sentences`), `transcription.end_time` and
`len(transcription.get_char_info())`. -/
def find_clips (cfg : ClipFinderConfig) (sentences_info : List Clip)
    (sentence_embeddings : List Vec) (end_time : ℚ) (num_chars : ℕ) :
    Except String (List MediaSegment) :=
  match run_schedule cfg sentences_info sentence_embeddings (tier_schedule cfg)
      (if end_time ≤ cfg.max_clip_duration then [seedClip end_time num_chars] else []) with
  | .error e => .error e
  | .ok final => .ok (final.map toMediaSegment)

/-! ### Driver invariants -/

/-- Membership in the output of `_remove_duplicates` means: drawn from the
candidates, duration within bounds, and not a near-duplicate of any
existing segment. -/
theorem remove_duplicates_mem (potential existing : List Clip) (mn mx : ℚ)
    (c : Clip) (hc : c ∈ remove_duplicates potential existing mn mx) :
    c ∈ potential ∧ mn ≤ c.end_time - c.start_time ∧
      c.end_time - c.start_time ≤ mx ∧ is_duplicate c existing = false := by
  unfold remove_duplicates at hc
  rw [List.mem_filter] at hc
  obtain ⟨h1, h2⟩ := hc
  simp only [Bool.and_eq_true, decide_eq_true_eq, Bool.not_eq_true'] at h2
  exact ⟨h1, h2.1.1, h2.1.2, h2.2⟩

/-- Reading of `is_duplicate = false`: the candidate is at combined
time-distance at least 15 from every existing segment. -/
theorem is_duplicate_false_far (c : Clip) (existing : List Clip) (e : Clip)
    (h : is_duplicate c existing = false) (he : e ∈ existing) :
    15 ≤ |c.start_time - e.start_time| + |c.end_time - e.end_time| := by
  unfold is_duplicate at h
  rw [List.any_eq_false] at h
  have := h e he
  rw [decide_eq_true_eq, not_lt] at this
  exact this

/-- Invariants of the agglomeration loop, by strong induction on the
length of the working embedding sequence: on success the accumulated list
is only extended; every output clip is either inherited or has its
duration within the round's bounds; and every output clip is either
inherited or at combined time-distance at least 15 from every clip that
was already accepted when the loop started. -/
theorem rounds_ok_spec (cfg : ClipFinderConfig) :
    ∀ (n : ℕ) (embs : List Vec), embs.length ≤ n →
      ∀ (clips : List Clip) (k : ℕ) (mn mx : ℚ) (fin res : List Clip),
        text_tile_multiple_rounds cfg clips embs k mn mx fin = .ok res →
        (∃ t, res = fin ++ t) ∧
          (∀ c ∈ res, c ∈ fin ∨
            (mn ≤ c.end_time - c.start_time ∧ c.end_time - c.start_time ≤ mx)) ∧
          (∀ c ∈ res, c ∈ fin ∨ ∀ e ∈ fin,
            15 ≤ |c.start_time - e.start_time| + |c.end_time - e.end_time|) := by
  intro n
  induction n with
  | zero =>
    intro embs hle clips k mn mx fin res h
    unfold text_tile_multiple_rounds at h
    rw [dif_neg (by omega)] at h
    rw [Except.ok.injEq] at h
    subst h
    exact ⟨⟨[], by simp⟩, fun c hc => Or.inl hc, fun c hc => Or.inl hc⟩
  | succ n ih =>
    intro embs hle clips k mn mx fin res h
    by_cases h8 : 8 < embs.length
    · unfold text_tile_multiple_rounds at h
      rw [dif_pos h8] at h
      split at h
      · exact absurd h (by simp)
      next sc se htt =>
      have hlt : se.length ≤ n := by
        have := clip_text_tile_se_lt cfg clips embs k sc se (by omega) htt
        omega
      obtain ⟨⟨t, ht⟩, hdur, hfar⟩ := ih se hlt sc k mn mx _ res h
      have hsplit : ∀ c, c ∈ fin ++ remove_duplicates sc fin mn mx →
          c ∈ fin ∨ c ∈ remove_duplicates sc fin mn mx := by
        intro c hc
        exact List.mem_append.mp hc
      refine ⟨⟨remove_duplicates sc fin mn mx ++ t, by rw [ht, List.append_assoc]⟩, ?_, ?_⟩
      · intro c hc
        rcases hdur c hc with hin | hbounds
        · rcases hsplit c hin with hfin | hnew
          · exact Or.inl hfin
          · exact Or.inr ⟨(remove_duplicates_mem _ _ _ _ _ hnew).2.1,
              (remove_duplicates_mem _ _ _ _ _ hnew).2.2.1⟩
        · exact Or.inr hbounds
      · intro c hc
        rcases hfar c hc with hin | hfar'
        · rcases hsplit c hin with hfin | hnew
          · exact Or.inl hfin
          · refine Or.inr ?_
            intro e he
            exact is_duplicate_false_far c fin e
              (remove_duplicates_mem _ _ _ _ _ hnew).2.2.2 he
        · refine Or.inr ?_
          intro e he
          exact hfar' e (List.mem_append.mpr (Or.inl he))
    · unfold text_tile_multiple_rounds at h
      rw [dif_neg h8] at h
      rw [Except.ok.injEq] at h
      subst h
      exact ⟨⟨[], by simp⟩, fun c hc => Or.inl hc, fun c hc => Or.inl hc⟩

/-- Invariants of the tier loop: on success the clip list is only
extended, and every clip is either inherited from the seed list or has
its duration within `[min_sec, max_clip_duration]` for some scheduled
`(k, min_sec)` pair. -/
theorem run_schedule_ok_spec (cfg : ClipFinderConfig) (si : List Clip)
    (se : List Vec) :
    ∀ (sched : List (ℕ × ℚ)) (clips res : List Clip),
      run_schedule cfg si se sched clips = .ok res →
      (∃ t, res = clips ++ t) ∧
        (∀ c ∈ res, c ∈ clips ∨ ∃ km ∈ sched,
          km.2 ≤ c.end_time - c.start_time ∧
            c.end_time - c.start_time ≤ cfg.max_clip_duration) := by
  intro sched
  induction sched with
  | nil =>
    intro clips res h
    unfold run_schedule at h
    rw [Except.ok.injEq] at h
    subst h
    exact ⟨⟨[], by simp⟩, fun c hc => Or.inl hc⟩
  | cons km rest ih =>
    intro clips res h
    unfold run_schedule at h
    split at h
    · exact absurd h (by simp)
    next clips' hr =>
    obtain ⟨⟨t1, ht1⟩, hdur1, _⟩ :=
      rounds_ok_spec cfg se.length se (le_refl _) si km.1 km.2
        cfg.max_clip_duration clips clips' hr
    obtain ⟨⟨t2, ht2⟩, hdur2⟩ := ih clips' res h
    refine ⟨⟨t1 ++ t2, by rw [ht2, ht1, List.append_assoc]⟩, ?_⟩
    intro c hc
    rcases hdur2 c hc with hin | ⟨km', hkm', hb⟩
    · rcases hdur1 c hin with hin' | hb
      · exact Or.inl hin'
      · exact Or.inr ⟨km, by simp, hb⟩
    · exact Or.inr ⟨km', by simp [hkm'], hb⟩

/-! ### Success of `text_tile` away from the degenerate lengths -/

/-- Facts extracted from a passing tiler configuration check. -/
theorem check_tiler_none_facts (k : ℕ) (wcp agg : String) (wl : ℕ)
    (policy : String)
    (h : check_valid_tiler_config k wcp agg wl policy = none) :
    2 ≤ k ∧ 3 ≤ wl ∧ (policy = "average" ∨ policy = "high" ∨ policy = "low") := by
  unfold check_valid_tiler_config at h
  split_ifs at h with h1 h2 h3 h4 h5
  exact ⟨by omega, by omega, by tauto⟩

/-- A list whose entry at some position is `1` has at least one set flag. -/
theorem countOnes_pos_of_getD (l : List ℕ) (i : ℕ) (hi : i < l.length)
    (h : l.getD i 0 = 1) : 1 ≤ countOnes l := by
  have hmem : (1 : ℕ) ∈ l := by
    rw [← h, List.getD_eq_getElem l 0 hi]
    exact List.getElem_mem hi
  unfold countOnes
  rw [Nat.succ_le_iff, List.countP_pos]
  exact ⟨1, hmem, by simp⟩

/-- For an input of length at least 3 whose length is not
`smoothing_width + 1`, a validly configured `text_tile` succeeds. -/
theorem text_tile_ok_exists (embs : List Vec) (k : ℕ) (wcp agg : String)
    (wl : ℕ) (policy : String)
    (hcfg : check_valid_tiler_config k wcp agg wl policy = none)
    (h3 : 3 ≤ embs.length) (hw : embs.length ≠ wl + 1) :
    ∃ flags pooled, text_tile embs k wcp agg wl policy = .ok (flags, pooled) := by
  obtain ⟨hk2, hwl3, hpol⟩ := check_tiler_none_facts _ _ _ _ _ hcfg
  have hgap : (calc_gap_scores embs
      (if embs.length ≤ k then max (embs.length / 5) 2 else k)
      (poolMethod wcp)).length = embs.length - 1 := by
    simp [calc_gap_scores]
  -- the smoothing step succeeds and preserves the gap-score length
  have hsm : ∃ y, smooth (calc_gap_scores embs
      (if embs.length ≤ k then max (embs.length / 5) 2 else k)
      (poolMethod wcp)) (if embs.length ≤ wl then 2 else wl) ("flat") = .ok y ∧
      y.length = embs.length - 1 := by
    by_cases hN : embs.length ≤ wl
    · rw [if_pos hN]
      exact ⟨_, smooth_noop _ _ _ (by omega) (by rw [hgap]; omega), hgap⟩
    · rw [if_neg hN]
      obtain ⟨y, hy, hylen⟩ := smooth_flat_length _ wl hwl3 (by rw [hgap]; omega)
      exact ⟨y, hy, by rw [hylen, hgap]⟩
  obtain ⟨y, hy, hylen⟩ := hsm
  have hdl : (calc_depth_scores y).length = embs.length - 1 := by
    simp [calc_depth_scores, hylen]
  set flags : List ℕ := (List.range ((calc_depth_scores y).length + 1)).map (fun i =>
      if i = (calc_depth_scores y).length then 1
      else if boundaryCond (calc_depth_scores y) policy i then 1 else 0) with hflags
  have hid : identify_boundaries (calc_depth_scores y) policy = .ok flags := by
    unfold identify_boundaries
    rw [if_pos (by tauto)]
  have hflen : flags.length = embs.length := by
    rw [hflags]
    simp [hdl]
    omega
  have hlast : flags.getD (calc_depth_scores y).length 0 = 1 := by
    rw [hflags, getD_range_map _ _ _ _ (by omega)]
    simp
  have hpos1 : 1 ≤ ([] : List Vec).length + countOnes (flags.take embs.length) := by
    simp only [List.length_nil, Nat.zero_add]
    rw [← hflen, List.take_length]
    exact countOnes_pos_of_getD _ _ (by rw [hflen, hdl]; omega) hlast
  obtain ⟨r, hr⟩ := poolGroupsGo_ok_of (poolMethod agg) embs flags [] []
    (by rw [hflen]) hpos1
  refine ⟨flags, r, ?_⟩
  unfold text_tile
  rw [hcfg]
  simp only [hy, hid, pool_embedding_groups, hr]

/-! ### Characterisation of the super-clip grouping -/

/-- Indices (counting from `i`) of the set flags in a flag list. -/
def positionsFrom (i : ℕ) : List ℕ → List ℕ
  | [] => []
  | b :: bs =>
    if b = 1 then i :: positionsFrom (i + 1) bs else positionsFrom (i + 1) bs

/-- The boundary positions of a flag vector. -/
def boundaryPositions (flags : List ℕ) : List ℕ := positionsFrom 0 flags

/-- Specification of the grouping actually performed by
`ClipFinder._text_tile`: writing `p₀ < p₁ < ⋯` for the boundary
positions, candidate `j` spans from unit `p_{j-1}` (unit `0` for the
first candidate) to unit `p_j` - consecutive groups share their boundary
unit - taking start data from the group's first unit, end data from its
last unit, and its norm from the `j`-th pooled embedding. -/
def overlappingGroupClips (clips : List Clip) (flags : List ℕ)
    (newEmbs : List Vec) : List Clip :=
  (List.enumFrom 0
      (List.zip (0 :: boundaryPositions flags) (boundaryPositions flags))).map
    (fun je =>
      { start_char := (clips.getD je.2.1 default).start_char,
        end_char := (clips.getD je.2.2 default).end_char,
        start_time := (clips.getD je.2.1 default).start_time,
        end_time := (clips.getD je.2.2 default).end_time,
        norm := normTwo (newEmbs.getD je.1 []) })

/-- The grouping loop equals the positional specification, for every
start state. -/
theorem buildSuperGo_spec (clips : List Clip) (newEmbs : List Vec) :
    ∀ (bs : List ℕ) (i s j : ℕ),
      buildSuperGo clips newEmbs bs i s j =
        (List.enumFrom j
            (List.zip (s :: positionsFrom i bs) (positionsFrom i bs))).map
          (fun je =>
            { start_char := (clips.getD je.2.1 default).start_char,
              end_char := (clips.getD je.2.2 default).end_char,
              start_time := (clips.getD je.2.1 default).start_time,
              end_time := (clips.getD je.2.2 default).end_time,
              norm := normTwo (newEmbs.getD je.1 []) }) := by
  intro bs
  induction bs with
  | nil =>
    intro i s j
    simp [buildSuperGo, positionsFrom]
  | cons b bs ih =>
    intro i s j
    by_cases hb : b = 1
    · simp only [buildSuperGo, positionsFrom, if_pos hb, List.zip_cons_cons,
        List.enumFrom, List.map_cons]
      rw [ih (i + 1) i (j + 1)]
    · simp only [buildSuperGo, positionsFrom, if_neg hb]
      exact ih (i + 1) s j

/-! ### The cutoff comparison over the reals -/

/-- The population variance is nonnegative. -/
theorem varOf_nonneg (l : List ℚ) : 0 ≤ varOf l := by
  unfold varOf
  refine div_nonneg (List.sum_nonneg ?_) (by positivity)
  intro x hx
  rw [List.mem_map] at hx
  obtain ⟨d, _, rfl⟩ := hx
  positivity

/-- The square-root-free encoding `gtCutoff` agrees with the real-number
comparison `d > cutoff`, where the cutoff is `mean`, `mean + √var` or
`mean - √var` according to the policy. -/
theorem gtCutoff_real (policy : String) (m v d : ℚ) (hv : 0 ≤ v)
    (hpol : policy = "average" ∨ policy = "high" ∨ policy = "low") :
    gtCutoff policy m v d = true ↔
      (if policy = "average" then (m : ℝ)
       else if policy = "high" then (m : ℝ) + Real.sqrt (v : ℝ)
       else (m : ℝ) - Real.sqrt (v : ℝ)) < (d : ℝ) := by
  have hv' : (0 : ℝ) ≤ (v : ℝ) := by exact_mod_cast hv
  have hs0 : (0 : ℝ) ≤ Real.sqrt (v : ℝ) := Real.sqrt_nonneg _
  have hs2 : Real.sqrt (v : ℝ) ^ 2 = (v : ℝ) := Real.sq_sqrt hv'
  rcases hpol with hp | hp | hp
  · subst hp
    simp only [gtCutoff, eq_self_iff_true, if_true, decide_eq_true_eq]
    exact_mod_cast Iff.rfl
  · subst hp
    simp only [gtCutoff, String.reduceEq, if_false, eq_self_iff_true, if_true,
      Bool.and_eq_true, decide_eq_true_eq]
    constructor
    · rintro ⟨h1, h2⟩
      have h1' : (m : ℝ) ≤ (d : ℝ) := by exact_mod_cast h1
      have h2' : (v : ℝ) < ((d : ℝ) - (m : ℝ)) ^ 2 := by exact_mod_cast h2
      nlinarith [hs0, hs2]
    · intro h
      have h1' : (m : ℝ) ≤ (d : ℝ) := by nlinarith [hs0, hs2]
      have h2' : (v : ℝ) < ((d : ℝ) - (m : ℝ)) ^ 2 := by nlinarith [hs0, hs2]
      exact ⟨by exact_mod_cast h1', by exact_mod_cast h2'⟩
  · subst hp
    simp only [gtCutoff, String.reduceEq, if_false, Bool.or_eq_true,
      decide_eq_true_eq]
    constructor
    · rintro (h1 | h2)
      · have h1' : (m : ℝ) < (d : ℝ) := by exact_mod_cast h1
        nlinarith [hs0, hs2]
      · have h2' : ((m : ℝ) - (d : ℝ)) ^ 2 < (v : ℝ) := by exact_mod_cast h2
        nlinarith [hs0, hs2, Real.sqrt_nonneg ((v : ℚ) : ℝ),
          Real.sq_sqrt hv', sq_nonneg ((m : ℝ) - (d : ℝ) - Real.sqrt (v : ℝ))]
    · intro h
      by_cases hmd : (m : ℝ) < (d : ℝ)
      · exact Or.inl (by exact_mod_cast hmd)
      · refine Or.inr ?_
        have h2' : ((m : ℝ) - (d : ℝ)) ^ 2 < (v : ℝ) := by
          nlinarith [hs0, hs2]
        exact_mod_cast h2'

/-! ### Pointwise reading of the boundary flags -/

/-- Entry `i` of the flag vector returned by `_identify_boundaries`. -/
theorem identify_boundaries_getD (depths : List ℚ) (policy : String)
    (flags : List ℕ) (hok : identify_boundaries depths policy = .ok flags)
    (i : ℕ) (hi : i < depths.length + 1) :
    flags.getD i 0 = if i = depths.length then 1
      else if boundaryCond depths policy i then 1 else 0 := by
  unfold identify_boundaries at hok
  split_ifs at hok
  rw [Except.ok.injEq] at hok
  rw [← hok, getD_range_map _ _ _ _ hi]

/-- One-step unfolding of the agglomeration loop on a long sequence with
a successful round. -/
theorem rounds_step (cfg : ClipFinderConfig) (clips : List Clip)
    (embs : List Vec) (k : ℕ) (mn mx : ℚ) (fin sc : List Clip) (se : List Vec)
    (h8 : 8 < embs.length)
    (htt : clip_text_tile cfg clips embs k = .ok (sc, se)) :
    text_tile_multiple_rounds cfg clips embs k mn mx fin =
      text_tile_multiple_rounds cfg sc se k mn mx
        (fin ++ remove_duplicates sc fin mn mx) := by
  conv_lhs => unfold text_tile_multiple_rounds
  rw [dif_pos h8, htt]

/-- The agglomeration loop exits as soon as the working sequence has at
most 8 elements, returning the accumulated clips. -/
theorem rounds_stop (cfg : ClipFinderConfig) (clips : List Clip)
    (embs : List Vec) (k : ℕ) (mn mx : ℚ) (fin : List Clip)
    (h8 : ¬ 8 < embs.length) :
    text_tile_multiple_rounds cfg clips embs k mn mx fin = .ok fin := by
  unfold text_tile_multiple_rounds
  rw [dif_neg h8]

/-- The grouping that claim C1 describes (disjoint runs, each group
beginning at the unit immediately following the previous group's final
boundary unit): candidate `0` spans units `0 .. p₀` and candidate
`j ≥ 1` spans units `p_{j-1} + 1 .. p_j`.  Built from the claim's words,
to be compared with `buildSuperClips` (the source's behaviour). -/
def disjointGroupClips (clips : List Clip) (flags : List ℕ)
    (newEmbs : List Vec) : List Clip :=
  (List.enumFrom 0
      (List.zip (0 :: (boundaryPositions flags).map (· + 1))
        (boundaryPositions flags))).map
    (fun je =>
      { start_char := (clips.getD je.2.1 default).start_char,
        end_char := (clips.getD je.2.2 default).end_char,
        start_time := (clips.getD je.2.1 default).start_time,
        end_time := (clips.getD je.2.2 default).end_time,
        norm := normTwo (newEmbs.getD je.1 []) })

end ClipsMaker

deriving instance DecidableEq for Except

namespace ClipsMaker

/-! ### Concrete data used by counterexamples and witnesses

Nine contiguous sentence units (unit `i` covers characters
`10*i .. 10*i + 10` and seconds `i .. i + 1`; the `norm` field of a unit
is never read by the source, which stores no "norm" key on sentence
dicts, and is set to `0`) together with one-dimensional embeddings, for
which every cosine similarity and Euclidean norm of the pipeline is
exactly representable in `ℚ`. -/

def units9 : List Clip :=
  [⟨0, 10, 0, 1, 0⟩, ⟨10, 20, 1, 2, 0⟩, ⟨20, 30, 2, 3, 0⟩, ⟨30, 40, 3, 4, 0⟩,
   ⟨40, 50, 4, 5, 0⟩, ⟨50, 60, 5, 6, 0⟩, ⟨60, 70, 6, 7, 0⟩, ⟨70, 80, 7, 8, 0⟩,
   ⟨80, 90, 8, 9, 0⟩]

/-- Nine one-dimensional embeddings whose tiling at window size 5 under
`cfgC` yields internal boundaries at positions 3 and 5. -/
def embs9 : List Vec :=
  [[-2], [-2], [-2], [-1], [-2], [2], [-1], [2], [-2]]

/-- A valid `ClipFinder` configuration: `min_clip_duration = 0`,
`max_clip_duration = 5`, cutoff policy `"low"`, aggregation pooling
`"max"`, smoothing width 3, window-compare pooling `"mean"`. -/
def cfgC : ClipFinderConfig := ⟨0, 5, "low", "max", 3, "mean"⟩

/-! ### Claim C1 -/

/-- **C1, counterexample.**  On `units9`/`embs9` at window size 5 the
round detects boundaries at positions 3, 5 and 8, and the source's
grouping (`start_idx = end_idx` after each emitted clip) yields a second
candidate that STARTS AT boundary unit 3 (`start_char = 30`,
`start_time = 3`) - overlapping the first candidate, which ENDS at unit 3
(`end_char = 40`) - whereas the claim's disjoint grouping would start it
at unit 4 (`start_char = 40`, `start_time = 4`).  So boundary groups are
neither disjoint nor does a group begin at the unit immediately following
the previous group's final unit. -/
theorem C1_counterexample :
    text_tile embs9 5 ("mean") ("max") 3 ("low") =
      .ok ([0, 0, 0, 1, 0, 1, 0, 0, 1], [[-2], [-2], [2]]) ∧
    clip_text_tile cfgC units9 embs9 5 =
      .ok ([⟨0, 40, 0, 4, 2⟩, ⟨30, 60, 3, 6, 2⟩, ⟨50, 90, 5, 9, 2⟩],
        [[-2], [-2], [2]]) ∧
    buildSuperClips units9 [0, 0, 0, 1, 0, 1, 0, 0, 1] [[-2], [-2], [2]] ≠
      disjointGroupClips units9 [0, 0, 0, 1, 0, 1, 0, 0, 1] [[-2], [-2], [2]] ∧
    (disjointGroupClips units9 [0, 0, 0, 1, 0, 1, 0, 0, 1]
      [[-2], [-2], [2]]).getD 1 default = ⟨40, 60, 4, 6, 2⟩ ∧
    (buildSuperClips units9 [0, 0, 0, 1, 0, 1, 0, 0, 1]
      [[-2], [-2], [2]]).getD 1 default = ⟨30, 60, 3, 6, 2⟩ := by
  refine ⟨by with_unfolding_all decide, by with_unfolding_all decide,
    by with_unfolding_all decide, by with_unfolding_all decide,
    by with_unfolding_all decide⟩

/-- **C1 (amended).**  In each agglomeration round the boundary groups
are contiguous runs of the working sequence that OVERLAP at the boundary
units: writing `p₀ < p₁ < ⋯` for the set boundary positions, candidate
`0` spans units `0 .. p₀` and candidate `j ≥ 1` spans units
`p_{j-1} .. p_j` (each group begins AT the previous group's final
boundary unit, not at the unit after it).  Every candidate takes its
`start_char`/`start_time` from the first unit of its group, its
`end_char`/`end_time` from the last unit of its group, and its magnitude
from the corresponding pooled vector's norm. -/
theorem C1_group_structure (clips : List Clip) (flags : List ℕ)
    (newEmbs : List Vec) :
    buildSuperClips clips flags newEmbs =
      overlappingGroupClips clips flags newEmbs := by
  unfold buildSuperClips overlappingGroupClips boundaryPositions
  exact buildSuperGo_spec clips newEmbs flags 0 0 0

/-! ### Claim C2 -/

/-- **C2, counterexample.**  `text_tile` does not return a result for
every embedding sequence of length `N ≥ 1` under a valid configuration:
for `N = 1` (and `N = 2`) the smoothing step raises `ValueError` because
the gap-score sequence is shorter than the reduced window, and for
`N = smoothing_width + 1` (here `N = 4`, width 3) the smoothing output
loses one element, the flag vector comes out one short of `N`, and group
pooling raises `IndexError`. -/
theorem C2_counterexample :
    check_valid_tiler_config 5 ("mean") ("max") 3 ("high") = none ∧
    text_tile [[1]] 5 ("mean") ("max") 3 ("high") =
      .error ("Input vector needs to be bigger than window size.") ∧
    text_tile [[1], [1], [1], [1]] 5 ("mean") ("max") 3 ("high") =
      .error ("IndexError: boundaries index out of range") := by
  refine ⟨by decide, by with_unfolding_all decide, by with_unfolding_all decide⟩

/-- **C2 (amended).**  For every embedding sequence of length `N ≥ 3`
with `N ≠ smoothing_width + 1` and every valid configuration, `text_tile`
returns a boundary-flag sequence of length exactly `N` whose last flag is
set, and a pooled-embedding sequence whose length equals the number of
set flags, hence at least 1. -/
theorem C2_text_tile_shapes (embs : List Vec) (k : ℕ) (wcp agg : String)
    (wl : ℕ) (policy : String)
    (hcfg : check_valid_tiler_config k wcp agg wl policy = none)
    (h3 : 3 ≤ embs.length) (hw : embs.length ≠ wl + 1) :
    ∃ flags pooled, text_tile embs k wcp agg wl policy = .ok (flags, pooled) ∧
      flags.length = embs.length ∧ flags.getD (embs.length - 1) 0 = 1 ∧
      pooled.length = countOnes flags ∧ 1 ≤ pooled.length := by
  obtain ⟨flags, pooled, hok⟩ :=
    text_tile_ok_exists embs k wcp agg wl policy hcfg h3 hw
  obtain ⟨ha, hb, hc, hd, _⟩ := text_tile_ok_spec _ _ _ _ _ _ _ _ hok
  exact ⟨flags, pooled, hok, ha, hd, hb, hc⟩

/-- **C2, witness.** -/
theorem C2_witness :
    check_valid_tiler_config 7 ("mean") ("max") 3 ("average") = none ∧
    (3 : ℕ) ≤ ([[1], [2], [3]] : List Vec).length ∧
    ∃ flags pooled, text_tile [[1], [2], [3]] 7 ("mean") ("max") 3 ("average") =
      .ok (flags, pooled) ∧ flags.length = ([[1], [2], [3]] : List Vec).length ∧
      flags.getD (([[1], [2], [3]] : List Vec).length - 1) 0 = 1 ∧
      pooled.length = countOnes flags ∧ 1 ≤ pooled.length := by
  refine ⟨by decide, by decide, ?_⟩
  exact C2_text_tile_shapes [[1], [2], [3]] 7 ("mean") ("max") 3 ("average")
    (by decide) (by decide) (by decide)

/-! ### Claim C3 -/

/-- **C3, counterexample.**  Array ends compare against themselves with a
STRICT inequality, so an edge position can never qualify as a boundary:
for the depth sequence `[5, 0, 0]` under policy `"average"`, position 0
exceeds the cutoff (`mean = 5/3 < 5`) and strictly exceeds its only real
neighbour (`0 < 5`), yet it is not flagged (the self-comparison
`depths[0] > depths[max(0, -1)] = depths[0]` is false). -/
theorem C3_counterexample :
    identify_boundaries [5, 0, 0] ("average") = .ok [0, 0, 0, 1] ∧
    meanOf [5, 0, 0] < ([5, 0, 0] : List ℚ).getD 0 0 ∧
    ([5, 0, 0] : List ℚ).getD 1 0 < ([5, 0, 0] : List ℚ).getD 0 0 ∧
    ([0, 0, 0, 1] : List ℕ).getD 0 0 = 0 := by
  refine ⟨by with_unfolding_all decide, by with_unfolding_all decide,
    by with_unfolding_all decide, by with_unfolding_all decide⟩

/-- **C3 (amended).**  Given a depth-score sequence `D` of length `M`,
boundary selection computes `cutoff = mean D` for policy `"average"`,
`mean D + √(population variance)` for `"high"` and
`mean D - √(population variance)` for `"low"`, and flags position
`i < M` if and only if `D[i] > cutoff` and `D[i]` is strictly greater
than both of its immediate neighbours, where array ends compare against
themselves - so that an edge position (`i = 0` or `i = M-1`) can NEVER
qualify. -/
theorem C3_boundary_selection (depths : List ℚ) (policy : String)
    (flags : List ℕ) (i : ℕ)
    (hpol : policy = "average" ∨ policy = "high" ∨ policy = "low")
    (hok : identify_boundaries depths policy = .ok flags)
    (hi : i < depths.length) :
    (flags.getD i 0 = 1 ↔
      ((if policy = "average" then ((meanOf depths : ℚ) : ℝ)
        else if policy = "high" then
          ((meanOf depths : ℚ) : ℝ) + Real.sqrt ((varOf depths : ℚ) : ℝ)
        else ((meanOf depths : ℚ) : ℝ) - Real.sqrt ((varOf depths : ℚ) : ℝ))
          < ((depths.getD i 0 : ℚ) : ℝ) ∧
       depths.getD (i - 1) 0 < depths.getD i 0 ∧
       depths.getD (min (i + 1) (depths.length - 1)) 0 < depths.getD i 0)) ∧
    flags.getD 0 0 = 0 ∧ flags.getD (depths.length - 1) 0 = 0 := by
  have hgd := identify_boundaries_getD depths policy flags hok
  refine ⟨?_, ?_, ?_⟩
  · rw [hgd i (by omega), if_neg (by omega)]
    constructor
    · intro h
      split_ifs at h with hbc
      · unfold boundaryCond at hbc
        simp only [Bool.and_eq_true, decide_eq_true_eq] at hbc
        obtain ⟨⟨hcut, h1⟩, h2⟩ := hbc
        exact ⟨(gtCutoff_real policy (meanOf depths) (varOf depths)
          (depths.getD i 0) (varOf_nonneg _) hpol).mp hcut, h1, h2⟩
    · rintro ⟨hcut, h1, h2⟩
      have hbc : boundaryCond depths policy i = true := by
        unfold boundaryCond
        simp only [Bool.and_eq_true, decide_eq_true_eq]
        exact ⟨⟨(gtCutoff_real policy (meanOf depths) (varOf depths)
          (depths.getD i 0) (varOf_nonneg _) hpol).mpr hcut, h1⟩, h2⟩
      rw [if_pos hbc]
  · rw [hgd 0 (by omega), if_neg (by omega), boundaryCond_zero]
    simp
  · rw [hgd (depths.length - 1) (by omega), if_neg (by omega),
      boundaryCond_last _ _ (by omega)]
    simp

/-- **C3, witness.**  Position 0 of the flag vector for depth sequence
`[0, 1, 0]` under policy `"average"` is unset. -/
theorem C3_witness : ([0, 1, 0, 1] : List ℕ).getD 0 0 = 0 :=
  (C3_boundary_selection [0, 1, 0] ("average") [0, 1, 0, 1] 1
    (Or.inl rfl) (by with_unfolding_all decide) (by decide)).2.1

/-! ### Claim C4 -/

/-- **C4, counterexample.**  One run of `find_clips` under the valid
configuration `cfgC` returns three segments that are pairwise closer than
15 seconds in combined start/end distance: `_remove_duplicates` checks
each candidate only against the ALREADY-accepted list, never against the
other candidates of the same round's batch, so the three mutually-close
groups of the first round are all accepted together
(`|0-3| + |4-6| = 5 < 15`). -/
theorem C4_counterexample :
    check_valid_clip_finder_config cfgC = none ∧
    find_clips cfgC units9 embs9 9 90 =
      .ok [⟨0, 4, 0, 40⟩, ⟨3, 6, 30, 60⟩, ⟨5, 9, 50, 90⟩] ∧
    (⟨0, 4, 0, 40⟩ : MediaSegment) ∈
      ([⟨0, 4, 0, 40⟩, ⟨3, 6, 30, 60⟩, ⟨5, 9, 50, 90⟩] : List MediaSegment) ∧
    (⟨3, 6, 30, 60⟩ : MediaSegment) ∈
      ([⟨0, 4, 0, 40⟩, ⟨3, 6, 30, 60⟩, ⟨5, 9, 50, 90⟩] : List MediaSegment) ∧
    (⟨0, 4, 0, 40⟩ : MediaSegment) ≠ ⟨3, 6, 30, 60⟩ ∧
    |(0 : ℚ) - 3| + |(4 : ℚ) - 6| < 15 := by
  refine ⟨by decide, ?_, by decide, by decide, by decide,
    by with_unfolding_all decide⟩
  have e5 : text_tile_multiple_rounds cfgC units9 embs9 5
      cfgC.min_clip_duration cfgC.max_clip_duration [] =
      .ok [⟨0, 40, 0, 4, 2⟩, ⟨30, 60, 3, 6, 2⟩, ⟨50, 90, 5, 9, 2⟩] := by
    rw [rounds_step cfgC units9 embs9 5 cfgC.min_clip_duration
      cfgC.max_clip_duration [] [⟨0, 40, 0, 4, 2⟩, ⟨30, 60, 3, 6, 2⟩, ⟨50, 90, 5, 9, 2⟩]
      [[-2], [-2], [2]] (by decide) (by with_unfolding_all decide)]
    rw [rounds_stop _ _ _ _ _ _ _ (by decide)]
    with_unfolding_all decide
  have e7 : text_tile_multiple_rounds cfgC units9 embs9 7
      cfgC.min_clip_duration cfgC.max_clip_duration
      [⟨0, 40, 0, 4, 2⟩, ⟨30, 60, 3, 6, 2⟩, ⟨50, 90, 5, 9, 2⟩] =
      .ok [⟨0, 40, 0, 4, 2⟩, ⟨30, 60, 3, 6, 2⟩, ⟨50, 90, 5, 9, 2⟩] := by
    rw [rounds_step cfgC units9 embs9 7 cfgC.min_clip_duration
      cfgC.max_clip_duration
      [⟨0, 40, 0, 4, 2⟩, ⟨30, 60, 3, 6, 2⟩, ⟨50, 90, 5, 9, 2⟩]
      [⟨0, 60, 0, 6, 2⟩, ⟨50, 90, 5, 9, 2⟩] [[-2], [2]]
      (by decide) (by with_unfolding_all decide)]
    rw [rounds_stop _ _ _ _ _ _ _ (by decide)]
    with_unfolding_all decide
  have eB : ∀ (k : ℕ) (mn : ℚ), clip_text_tile cfgC units9 embs9 k =
      .ok ([⟨0, 90, 0, 9, 2⟩], [[-2]]) →
      text_tile_multiple_rounds cfgC units9 embs9 k mn cfgC.max_clip_duration
        [⟨0, 40, 0, 4, 2⟩, ⟨30, 60, 3, 6, 2⟩, ⟨50, 90, 5, 9, 2⟩] =
      .ok [⟨0, 40, 0, 4, 2⟩, ⟨30, 60, 3, 6, 2⟩, ⟨50, 90, 5, 9, 2⟩] := by
    intro k mn hk
    rw [rounds_step cfgC units9 embs9 k mn cfgC.max_clip_duration
      [⟨0, 40, 0, 4, 2⟩, ⟨30, 60, 3, 6, 2⟩, ⟨50, 90, 5, 9, 2⟩]
      [⟨0, 90, 0, 9, 2⟩] [[-2]] (by decide) hk]
    rw [rounds_stop _ _ _ _ _ _ _ (by decide)]
    -- the single 9-second candidate exceeds `max_clip_duration = 5`
    -- regardless of the tier's minimum, so nothing is appended
    unfold remove_duplicates
    simp only [List.filter_cons, List.filter_nil]
    rw [decide_eq_false (show ¬ ((⟨0, 90, 0, 9, 2⟩ : Clip).end_time -
      (⟨0, 90, 0, 9, 2⟩ : Clip).start_time ≤ cfgC.max_clip_duration) from by
        with_unfolding_all norm_num [cfgC])]
    simp
  unfold find_clips
  rw [if_neg (by with_unfolding_all decide)]
  simp only [tier_schedule, run_schedule]
  rw [e5]
  dsimp only
  rw [e7]
  dsimp only
  rw [eB 11 180 (by with_unfolding_all decide)]
  dsimp only
  rw [eB 17 180 (by with_unfolding_all decide)]
  dsimp only
  rw [eB 37 600 (by with_unfolding_all decide)]
  dsimp only
  rw [eB 53 600 (by with_unfolding_all decide)]
  dsimp only
  rw [eB 73 600 (by with_unfolding_all decide)]
  dsimp only
  rw [eB 97 600 (by with_unfolding_all decide)]
  with_unfolding_all decide

/-- **C4 (amended).**  Every candidate accepted during a run of the
agglomeration loop is at combined start/end time-distance at least 15
seconds from every segment that was already accepted when the loop
started; only candidates accepted within the same loop (in particular,
within the same round's batch, which `_remove_duplicates` does not check
against itself) can be mutual near-duplicates. -/
theorem C4_no_near_duplicate_of_earlier (cfg : ClipFinderConfig)
    (clips : List Clip) (embs : List Vec) (k : ℕ) (mn mx : ℚ)
    (fin res : List Clip) (c e : Clip)
    (hok : text_tile_multiple_rounds cfg clips embs k mn mx fin = .ok res)
    (hc : c ∈ res) (he : e ∈ fin) :
    c ∈ fin ∨ 15 ≤ |c.start_time - e.start_time| + |c.end_time - e.end_time| := by
  rcases (rounds_ok_spec cfg embs.length embs (le_refl _) clips k mn mx fin
      res hok).2.2 c hc with h | h
  · exact Or.inl h
  · exact Or.inr (h e he)

/-- **C4, witness.**  A candidate accepted with a distant pre-existing
segment in the accumulator is at distance at least 15 from it. -/
theorem C4_witness :
    (⟨0, 40, 0, 4, 2⟩ : Clip) ∈ ([⟨100, 200, 100, 200, 1⟩] : List Clip) ∨
    (15 : ℚ) ≤ |(⟨0, 40, 0, 4, 2⟩ : Clip).start_time -
        (⟨100, 200, 100, 200, 1⟩ : Clip).start_time| +
      |(⟨0, 40, 0, 4, 2⟩ : Clip).end_time -
        (⟨100, 200, 100, 200, 1⟩ : Clip).end_time| := by
  have hok : text_tile_multiple_rounds cfgC units9 embs9 5 0 5
      [⟨100, 200, 100, 200, 1⟩] =
      .ok [⟨100, 200, 100, 200, 1⟩, ⟨0, 40, 0, 4, 2⟩, ⟨30, 60, 3, 6, 2⟩,
        ⟨50, 90, 5, 9, 2⟩] := by
    rw [rounds_step cfgC units9 embs9 5 0 5 [⟨100, 200, 100, 200, 1⟩]
      [⟨0, 40, 0, 4, 2⟩, ⟨30, 60, 3, 6, 2⟩, ⟨50, 90, 5, 9, 2⟩]
      [[-2], [-2], [2]] (by decide) (by with_unfolding_all decide)]
    rw [rounds_stop _ _ _ _ _ _ _ (by decide)]
    with_unfolding_all decide
  exact C4_no_near_duplicate_of_earlier cfgC units9 embs9 5 0 5
    [⟨100, 200, 100, 200, 1⟩] _ _ _ hok (by decide) (by decide)

/-! ### Claims C5 and C6 -/

/-- A complete concrete run of `find_clips` on a one-sentence transcript
(no round ever starts, the seed segment is returned alone); shared by the
C5 and C6 witnesses. -/
theorem find_clips_single_run :
    find_clips cfgC [⟨0, 10, 0, 1, 0⟩] [[1]] 1 10 = .ok [⟨0, 1, 0, 10⟩] := by
  have hstop : ∀ (k : ℕ) (mn mx : ℚ) (fin : List Clip),
      text_tile_multiple_rounds cfgC [⟨0, 10, 0, 1, 0⟩] [[1]] k mn mx fin =
        .ok fin :=
    fun k mn mx fin => rounds_stop _ _ _ _ _ _ _ (by decide)
  unfold find_clips
  rw [if_pos (by with_unfolding_all decide)]
  simp only [tier_schedule, run_schedule, hstop]
  with_unfolding_all decide

/-- **C5.**  Every segment returned by `find_clips`, except the
whole-transcript seed segment, has its duration within
`[min_clip_duration, max_clip_duration]` for the tier that produced it
(the tier minimum is the configured `min_clip_duration`, 180, or 600);
and - the claim's scenario - with `min_clip_duration = 15` and
`max_clip_duration = 900` a candidate with `start_time = 0`,
`end_time = 10` is rejected by the duration filter. -/
theorem C5_duration_bounds :
    (∀ (cfg : ClipFinderConfig) (si : List Clip) (se : List Vec)
      (endT : ℚ) (n : ℕ) (out : List MediaSegment) (seg : MediaSegment),
      find_clips cfg si se endT n = .ok out → seg ∈ out →
      seg = toMediaSegment (seedClip endT n) ∨
        ∃ tmin : ℚ, (tmin = cfg.min_clip_duration ∨ tmin = 180 ∨ tmin = 600) ∧
          tmin ≤ seg.finish_sec - seg.begin_sec ∧
          seg.finish_sec - seg.begin_sec ≤ cfg.max_clip_duration) ∧
    remove_duplicates [⟨0, 10, 0, 10, 1⟩] [] 15 900 = [] := by
  constructor
  · intro cfg si se endT n out seg hok hseg
    unfold find_clips at hok
    split at hok
    · exact absurd hok (by simp)
    next final hrun =>
    rw [Except.ok.injEq] at hok
    subst hok
    rw [List.mem_map] at hseg
    obtain ⟨c, hc, rfl⟩ := hseg
    obtain ⟨_, hdur⟩ := run_schedule_ok_spec cfg si se _ _ _ hrun
    rcases hdur c hc with hin | ⟨km, hkm, hlo, hhi⟩
    · split_ifs at hin with hseed
      · rw [List.mem_singleton] at hin
        subst hin
        exact Or.inl rfl
      · exact absurd hin (List.not_mem_nil c)
    · refine Or.inr ⟨km.2, ?_, by simpa [toMediaSegment] using hlo,
        by simpa [toMediaSegment] using hhi⟩
      simp only [tier_schedule, List.mem_cons, List.not_mem_nil, or_false] at hkm
      rcases hkm with h | h | h | h | h | h | h | h <;> subst h <;> simp
  · with_unfolding_all decide

/-- **C5, witness.**  The single returned segment of the one-sentence run
is the seed segment (first disjunct). -/
theorem C5_witness :
    (⟨0, 1, 0, 10⟩ : MediaSegment) = toMediaSegment (seedClip 1 10) ∨
    ∃ tmin : ℚ, (tmin = cfgC.min_clip_duration ∨ tmin = 180 ∨ tmin = 600) ∧
      tmin ≤ (⟨0, 1, 0, 10⟩ : MediaSegment).finish_sec -
        (⟨0, 1, 0, 10⟩ : MediaSegment).begin_sec ∧
      (⟨0, 1, 0, 10⟩ : MediaSegment).finish_sec -
        (⟨0, 1, 0, 10⟩ : MediaSegment).begin_sec ≤ cfgC.max_clip_duration :=
  C5_duration_bounds.1 cfgC [⟨0, 10, 0, 1, 0⟩] [[1]] 1 10 [⟨0, 1, 0, 10⟩]
    ⟨0, 1, 0, 10⟩ find_clips_single_run (by decide)

/-- **C6.**  If the transcript's total duration does not exceed
`max_clip_duration`, the list returned by `find_clips` contains the
whole-transcript segment `{begin_sec = 0, finish_sec = end_time,
text_start_idx = 0, text_end_idx = num_chars}`, regardless of the tiering
outcome: the seed is placed in the accumulator before any tiering and
tiering only appends. -/
theorem C6_whole_transcript_seed (cfg : ClipFinderConfig) (si : List Clip)
    (se : List Vec) (endT : ℚ) (n : ℕ) (out : List MediaSegment)
    (hend : endT ≤ cfg.max_clip_duration)
    (hok : find_clips cfg si se endT n = .ok out) :
    ({ begin_sec := 0, finish_sec := endT, text_start_idx := 0,
       text_end_idx := n } : MediaSegment) ∈ out := by
  unfold find_clips at hok
  split at hok
  · exact absurd hok (by simp)
  next final hrun =>
  rw [Except.ok.injEq] at hok
  subst hok
  rw [if_pos hend] at hrun
  obtain ⟨⟨t, ht⟩, _⟩ := run_schedule_ok_spec cfg si se _ _ _ hrun
  rw [ht]
  simp [toMediaSegment, seedClip]

/-- **C6, witness.**  Scenario of the one-sentence run: total duration 1
fits within `max_clip_duration = 5`, and the seed segment is in the
output. -/
theorem C6_witness :
    (1 : ℚ) ≤ cfgC.max_clip_duration ∧
    ({ begin_sec := 0, finish_sec := 1, text_start_idx := 0,
       text_end_idx := 10 } : MediaSegment) ∈
      ([⟨0, 1, 0, 10⟩] : List MediaSegment) :=
  ⟨by with_unfolding_all decide,
   C6_whole_transcript_seed cfgC [⟨0, 10, 0, 1, 0⟩] [[1]] 1 10 [⟨0, 1, 0, 10⟩]
     (by with_unfolding_all decide) find_clips_single_run⟩

/-! ### Claim C7 -/

/-- **C7.**  The per-window-size agglomeration loop terminates: whenever
the working sequence is longer than 8 (the loop guard) and the round
completes, the round's output embedding sequence - one pooled vector per
set boundary flag - is strictly shorter than its input, so the working
sequence length strictly decreases each round until it is at most 8.
(This very fact is what makes `text_tile_multiple_rounds` definable by
well-founded recursion on the embedding-sequence length; a round that
raises instead terminates the loop by propagating the exception.) -/
theorem C7_round_strictly_shrinks (cfg : ClipFinderConfig)
    (clips : List Clip) (embs : List Vec) (k : ℕ) (sc : List Clip)
    (se : List Vec) (h8 : 8 < embs.length)
    (hok : clip_text_tile cfg clips embs k = .ok (sc, se)) :
    se.length < embs.length :=
  clip_text_tile_se_lt cfg clips embs k sc se (by omega) hok

/-- **C7, witness.**  The concrete round on the 9-element sequence
shrinks it to 3 pooled embeddings. -/
theorem C7_witness :
    8 < embs9.length ∧ ([[-2], [-2], [2]] : List Vec).length < embs9.length :=
  ⟨by decide,
   C7_round_strictly_shrinks cfgC units9 embs9 5
     [⟨0, 40, 0, 4, 2⟩, ⟨30, 60, 3, 6, 2⟩, ⟨50, 90, 5, 9, 2⟩]
     [[-2], [-2], [2]] (by decide) (by with_unfolding_all decide)⟩

/-! ### Claim C8 -/

/-- **C8.**  When the embedding-sequence length differs from the clip
(unit) sequence length passed into the same round, `_text_tile` raises
`ClipFinderError` before invoking the boundary detector (the check is the
first statement of the function), and the driver loop propagates the
error unchanged - the call fails as a whole, with no partial recovery. -/
theorem C8_shape_mismatch (cfg : ClipFinderConfig) (clips : List Clip)
    (embs : List Vec) (k : ℕ) (mn mx : ℚ) (fin : List Clip)
    (hne : embs.length ≠ clips.length) :
    clip_text_tile cfg clips embs k =
      .error (mismatchMsg embs.length clips.length) ∧
    (8 < embs.length →
      text_tile_multiple_rounds cfg clips embs k mn mx fin =
        .error (mismatchMsg embs.length clips.length)) := by
  have h1 : clip_text_tile cfg clips embs k =
      .error (mismatchMsg embs.length clips.length) := by
    unfold clip_text_tile
    rw [if_pos hne]
  refine ⟨h1, fun h8 => ?_⟩
  unfold text_tile_multiple_rounds
  rw [dif_pos h8, h1]

/-- **C8, witness.**  Nine embeddings against an empty clip list. -/
theorem C8_witness :
    clip_text_tile cfgC [] embs9 5 = .error (mismatchMsg embs9.length 0) ∧
    text_tile_multiple_rounds cfgC [] embs9 5 0 5 [] =
      .error (mismatchMsg embs9.length 0) := by
  have h := C8_shape_mismatch cfgC [] embs9 5 0 5 [] (by decide)
  exact ⟨h.1, h.2 (by decide)⟩

/-! ### Claim C9 -/

/-- **C9, counterexample.**  `smooth` does not keep the length of every
input: when the input length equals the window width (here `[1, 0, 0]`
with width 3) the result is one element SHORTER (the left reflection pad
`x[window_len:1:-1]` loses an element, and the final slice
`y[window_len-1:-window_len+1]` then cuts too much); and a width below 3
is not a no-op on a shorter-than-width input - it raises instead. -/
theorem C9_counterexample :
    smooth [1, 0, 0] 3 ("flat") = .ok [1 / 3, 0] ∧
    (([1 / 3, 0] : List ℚ)).length ≠ (([1, 0, 0] : List ℚ)).length ∧
    smooth [1] 2 ("flat") =
      .error ("Input vector needs to be bigger than window size.") := by
  refine ⟨by with_unfolding_all decide, by decide, by with_unfolding_all decide⟩

/-- **C9 (amended).**  The smoothing step returns a sequence of the same
length as its input whenever the input is strictly longer than the window
width (reflection padding with pad value `2*edge - mirror` prevents
boundary shrinkage), and for any window width below 3 it returns the
input unchanged, provided the input is at least as long as the width
(an input shorter than the width raises; an input of length exactly the
width comes back one element shorter). -/
theorem C9_smoothing_length :
    (∀ (x : List ℚ) (wl : ℕ) (win : String), wl < 3 → wl ≤ x.length →
      smooth x wl win = .ok x) ∧
    (∀ (x : List ℚ) (wl : ℕ), 3 ≤ wl → wl < x.length →
      ∃ y, smooth x wl ("flat") = .ok y ∧ y.length = x.length) :=
  ⟨fun x wl win h2 hle => smooth_noop x wl win h2 hle,
   fun x wl h3 hlt => smooth_flat_length x wl h3 hlt⟩

/-- **C9, witness.** -/
theorem C9_witness :
    smooth [1, 2] 2 ("flat") = .ok [1, 2] ∧
    ∃ y, smooth [1, 2, 3, 4] 3 ("flat") = .ok y ∧
      y.length = ([1, 2, 3, 4] : List ℚ).length :=
  ⟨C9_smoothing_length.1 [1, 2] 2 ("flat") (by decide) (by decide),
   C9_smoothing_length.2 [1, 2, 3, 4] 3 (by decide) (by decide)⟩

/-! ### Claim C10 -/

/-- **C10.**  `bool(segment)` is true iff all four fields (`begin_sec`,
`finish_sec`, `text_start_idx`, `text_end_idx`) are nonzero; in
particular any segment beginning at time 0 or character index 0 -
including the whole-transcript seed segment - evaluates as falsy. -/
theorem C10_media_segment_bool :
    (∀ s : MediaSegment, mediaSegmentBool s = true ↔
      (s.begin_sec ≠ 0 ∧ s.finish_sec ≠ 0 ∧ s.text_start_idx ≠ 0 ∧
        s.text_end_idx ≠ 0)) ∧
    (∀ s : MediaSegment, s.begin_sec = 0 ∨ s.text_start_idx = 0 →
      mediaSegmentBool s = false) ∧
    (∀ (e : ℚ) (n : ℕ), mediaSegmentBool (toMediaSegment (seedClip e n)) = false) := by
  refine ⟨?_, ?_, ?_⟩
  · intro s
    unfold mediaSegmentBool
    simp [and_assoc]
  · intro s h
    unfold mediaSegmentBool
    rcases h with h | h <;> simp [h]
  · intro e n
    unfold mediaSegmentBool toMediaSegment seedClip
    simp

/-- **C10, witness.**  A segment beginning at time 0 is falsy. -/
theorem C10_witness :
    mediaSegmentBool ⟨0, 5, 2, 3⟩ = false :=
  C10_media_segment_bool.2.1 _ (Or.inl rfl)

end ClipsMaker
